import Mathlib

/-!
Verification of the swan control-plane core against its specification.

The development shallowly embeds the four Go source files of the sampled
core — `manager/framework/state/app_state_machine.go`,
`manager/framework/state/constraints.go`, `janitor/upstream.go` and
`manager/framework/api/events_api.go` — as executable Lean definitions,
and settles the frozen claims about them.

Conventions used throughout:
  - Go `error` results are `Option String` (`none` = Go `nil`, `some msg`
    = a non-nil error carrying the message built by the Go code);
  - a Go panic is modelled by `Option`/a dedicated result constructor:
    a function that can panic returns `none` (or `.panicked`) there;
  - Go slices are Lean `List`s; in-place mutation through a pointer into
    a slice becomes `List.set` at the index the Go code computed;
  - external library calls (Go `regexp`, `strings`) are modelled by small
    executable stand-ins whose doc comments state exactly which facts of
    the real library the proofs rely on.
-/

namespace Constraints

/-- Models a `mesos.Attribute` as used by `constraints.go`: a name, whether
its type is `mesos.Value_TEXT`, and its text payload. -/
structure Attribute where
  name : String
  isText : Bool
  text : String
  deriving DecidableEq, Repr

/-- Models the fields of `mesos.Offer` read by `constraints.go`: hostname,
agent id and the user-defined attribute list.  (`GetHostname` and
`GetAgentId().Value` are modelled as always-present strings: Mesos offers
always carry both.) -/
structure Offer where
  hostname : String
  agentId : String
  attributes : List Attribute
  deriving DecidableEq, Repr

/-- Models `ConstraintContextHolder` (the `(offer, slot)` pair injected by
`SetContext`).  Of the slot only the side-channel the spec names for
`unique` — the hostnames already in use by running tasks of the slot's
application — is retained; `constraints.go` reads nothing else from it. -/
structure Ctx where
  offer : Offer
  hostnamesInUse : List String
  deriving DecidableEq, Repr

/-- The closed set of `Statement` implementations in `constraints.go`,
as a tagged variant: `Not`, `And`, `Or`, `UniqueStatment`,
`LikeStatement`, `ContainsStatement`.  Field names follow the Go structs
(`Op1`, `Op2`, `What`, `Regex`). -/
inductive Stmt where
  | snot (op1 : Stmt)
  | sand (op1 op2 : Stmt)
  | sor (op1 op2 : Stmt)
  | unique (what : String)
  | like (what : String) (regex : String)
  | scontains (what : String) (regex : String)
  deriving DecidableEq, Repr

/-- Helper for the model of Go `strings.Contains`: does `sub` occur as a
contiguous run inside the second list? -/
def charsContain (sub : List Char) : List Char → Bool
  | [] => sub.isEmpty
  | c :: cs => sub.isPrefixOf (c :: cs) || charsContain sub cs

/-- Models Go `strings.Contains s sub` (external library): substring test. -/
def goStringsContains (s sub : String) : Bool :=
  charsContain sub.data s.data

/-- Checks that the parentheses of a pattern are balanced (helper for the
model of regex compilation). -/
def parensBalanced : List Char → Nat → Bool
  | [], 0 => true
  | [], _ + 1 => false
  | c :: cs, d =>
    if c = '(' then parensBalanced cs (d + 1)
    else if c = ')' then
      match d with
      | 0 => false
      | d' + 1 => parensBalanced cs d'
    else parensBalanced cs d

/-- Models the success condition of Go `regexp.MustCompile` (external
library): `regexpValid pat` holds when compilation succeeds,
i.e. `MustCompile` does not panic.  The model is simplified to
balanced-parentheses; the proofs rely only on the facts that it is a
total boolean predicate and that the genuinely invalid Go pattern
`"("` is rejected, both true of the real library. -/
def regexpValid (pat : String) : Bool :=
  parensBalanced pat.data 0

/-- Models Go `Regexp.MatchString` (external library) as a total stand-in
(substring containment of the pattern text).  No claim below depends on
the matching semantics, only on its totality. -/
def regexpMatch (pat s : String) : Bool :=
  goStringsContains s pat

/-- Models `utils.SliceContains` on string slices. -/
def sliceContains (l : List String) (s : String) : Bool :=
  l.contains s

/-- The `uniqWhat` package variable of `constraints.go`. -/
def uniqWhat : List String := ["hostname"]

/-- The `likeWhat` package variable of `constraints.go`. -/
def likeWhat : List String := ["hostname", "agentid"]

/-- The first offer attribute whose name equals `what` and whose type is
`mesos.Value_TEXT`, as walked by the attribute loops of
`LikeStatement.Eval` and `ContainsStatement.Eval`. -/
def findTextAttr : List Attribute → String → Option String
  | [], _ => none
  | a :: rest, what =>
    if a.name == what && a.isText then some a.text
    else findTextAttr rest what

/-- `UniqueStatment.Eval`: the `what == "hostname"` branch is empty (its
body is commented out in the source), so the function returns `false`
unconditionally. -/
def uniqueEval (what : String) (_ctx : Ctx) : Bool :=
  if what == "hostname" then false else false

/-- The match computed by `LikeStatement.Eval` once the regex has
compiled: hostname, then agentid, then the first text attribute named
`What`; `false` when nothing matches. -/
def likeMatch (what regex : String) (o : Offer) : Bool :=
  if what == "hostname" then regexpMatch regex o.hostname
  else if what == "agentid" then regexpMatch regex o.agentId
  else
    match findTextAttr o.attributes what with
    | some text => regexpMatch regex text
    | none => false

/-- `LikeStatement.Eval`: `regexp.MustCompile(ls.Regex)` runs first and
panics (`none`) on an invalid pattern; otherwise the match of
`likeMatch`. -/
def likeEval (what regex : String) (o : Offer) : Option Bool :=
  if regexpValid regex then some (likeMatch what regex o) else none

/-- `ContainsStatement.Eval`: `strings.Contains` against hostname, then
agentid, then the first text attribute named `What`; `false` when
nothing matches.  (The `Regex` field holds the needle.) -/
def containsEval (what regex : String) (o : Offer) : Bool :=
  if what == "hostname" then goStringsContains o.hostname regex
  else if what == "agentid" then goStringsContains o.agentId regex
  else
    match findTextAttr o.attributes what with
    | some text => goStringsContains text regex
    | none => false

/-- `Statement.Eval` for the whole tree, instrumented with the list of
leaf statements evaluated, in evaluation order.  The result `none`
models a panic.  `AndStatement.Eval` is the Go expression
`as.Op2.Eval() && as.Op1.Eval()` — `Op2` is evaluated first and `&&`
short-circuits on it — and `OrStatement.Eval` is
`os.Op2.Eval() || os.Op1.Eval()`. -/
def evalT : Stmt → Ctx → Option Bool × List Stmt
  | .snot op1, ctx =>
    let r := evalT op1 ctx
    (r.1.map (fun b => !b), r.2)
  | .sand op1 op2, ctx =>
    match evalT op2 ctx with
    | (none, t2) => (none, t2)
    | (some false, t2) => (some false, t2)
    | (some true, t2) =>
      match evalT op1 ctx with
      | (none, t1) => (none, t2 ++ t1)
      | (some v1, t1) => (some v1, t2 ++ t1)
  | .sor op1 op2, ctx =>
    match evalT op2 ctx with
    | (none, t2) => (none, t2)
    | (some true, t2) => (some true, t2)
    | (some false, t2) =>
      match evalT op1 ctx with
      | (none, t1) => (none, t2 ++ t1)
      | (some v1, t1) => (some v1, t2 ++ t1)
  | .unique what, ctx => (some (uniqueEval what ctx), [.unique what])
  | .like what regex, ctx => (likeEval what regex ctx.offer, [.like what regex])
  | .scontains what regex, ctx =>
    (some (containsEval what regex ctx.offer), [.scontains what regex])

/-- `Statement.Valid` for the whole tree: `Not`/`And`/`Or` return the
first non-nil operand error; `unique` restricts `What` to `uniqWhat`,
`like` and `contains` to `likeWhat`, with the error strings of the
source. -/
def Stmt.valid : Stmt → Option String
  | .snot op1 => op1.valid
  | .sand op1 op2 =>
    match op1.valid with
    | some e => some e
    | none => op2.valid
  | .sor op1 op2 =>
    match op1.valid with
    | some e => some e
    | none => op2.valid
  | .unique what =>
    if sliceContains uniqWhat what then none
    else some "only hostname is supported for the time being"
  | .like what _ =>
    if sliceContains likeWhat what then none
    else some "only hostname, agentid are supported"
  | .scontains what _ =>
    if sliceContains likeWhat what then none
    else some "only hostname, ip, agentid are supported"

/-- The pure logical denotation of a statement tree: leaves by their
(total) match functions, `not`/`and`/`or` as boolean negation,
conjunction and disjunction. -/
def denote : Stmt → Ctx → Bool
  | .snot op1, ctx => !(denote op1 ctx)
  | .sand op1 op2, ctx => denote op1 ctx && denote op2 ctx
  | .sor op1 op2, ctx => denote op1 ctx || denote op2 ctx
  | .unique what, ctx => uniqueEval what ctx
  | .like what regex, ctx => likeMatch what regex ctx.offer
  | .scontains what regex, ctx => containsEval what regex ctx.offer

/-- All regexes appearing in `like` leaves of the tree compile. -/
def regexesOk : Stmt → Bool
  | .snot op1 => regexesOk op1
  | .sand op1 op2 => regexesOk op1 && regexesOk op2
  | .sor op1 op2 => regexesOk op1 && regexesOk op2
  | .unique _ => true
  | .like _ regex => regexpValid regex
  | .scontains _ _ => true

/-- Modelled from the spec: the intended semantics of `Unique(hostname)` —
true iff no currently-running task of the same application as the slot
has been placed on the offer's hostname (`slot.App.HostnamesInUse()` is
the `hostnamesInUse` field of the context). -/
def uniqueSpecEval (ctx : Ctx) : Bool :=
  !(ctx.hostnamesInUse.contains ctx.offer.hostname)

end Constraints

namespace AppSM

/-- The seven application states declared as constants in
`app_state_machine.go` (`APP_STATE_NORMAL` etc.), as an enumeration;
`name` renders each as the constant's string value. -/
inductive AppState where
  | creating
  | normal
  | scaleUp
  | scaleDown
  | updating
  | cancelUpdate
  | deleting
  deriving DecidableEq, Repr

/-- The string value of each state constant (`State.Name()`). -/
def AppState.name : AppState → String
  | .creating => "creating"
  | .normal => "normal"
  | .scaleUp => "scale_up"
  | .scaleDown => "scale_down"
  | .updating => "updating"
  | .cancelUpdate => "cancel_update"
  | .deleting => "deleting"

/-- Modelled from the spec: the per-state `CanTransitTo` implementations
live in the `state_*.go` files, which are not among the sources; the
section 4.4 transition table defines which target names each state
admits (`deleting` is terminal — its row admits nothing). -/
def canTransitTo : AppState → String → Bool
  | .creating, t => t == "normal" || t == "deleting"
  | .normal, t => t == "scale_up" || t == "scale_down" || t == "updating" || t == "deleting"
  | .scaleUp, t => t == "normal" || t == "deleting"
  | .scaleDown, t => t == "normal" || t == "deleting"
  | .updating, t => t == "normal" || t == "cancel_update" || t == "deleting"
  | .cancelUpdate, t => t == "normal" || t == "deleting"
  | .deleting, _ => false

/-- `StateMachine.StateFactory`: the `switch` covers only `normal`,
`creating`, `deleting`, `scale_up` and `scale_down`; every other name —
including the declared constants `updating` and `cancel_update` — falls
to the `default` branch, which panics (`none`). -/
def StateFactory : String → Option AppState
  | "normal" => some .normal
  | "creating" => some .creating
  | "deleting" => some .deleting
  | "scale_up" => some .scaleUp
  | "scale_down" => some .scaleDown
  | _ => none

/-- Outcome of `StateMachine.TransitTo`: the new installed state and a
nil error, a non-nil error with the machine unchanged, or a panic
raised from `StateFactory`. -/
inductive TransitResult where
  | ok (next : AppState)
  | err (msg : String)
  | panicked
  deriving DecidableEq, Repr

/-- `StateMachine.TransitTo`: when the current state's `CanTransitTo`
admits the target name the machine installs `StateFactory target`
(panicking when the factory does); otherwise it returns the error
built by the source and leaves the state unchanged. -/
def TransitTo (cur : AppState) (target : String) : TransitResult :=
  if canTransitTo cur target then
    match StateFactory target with
    | some next => .ok next
    | none => .panicked
  else
    .err ("cann't transit from state: " ++ cur.name ++ " to state: " ++ target)

end AppSM

namespace Janitor

/-- The `Target` struct of `janitor/upstream.go`.  `Weight` is a Go
`float64`; it is only ever copied by the functions modelled here, so it
is carried as a rational. -/
structure Target where
  appID : String
  appAlias : String
  versionID : String
  appVersion : String
  taskID : String
  taskIP : String
  taskPort : Nat
  weight : Rat
  deriving DecidableEq, Repr

/-- Modelled from the spec: the `Sessions` store (`sessions.go` is not
among the sources).  Per section 4.6 it maps a remote IP to its bound
target; a binding is kept here as the bound target's `TaskID`, which is
also the key `upstream.go` removes sessions by.  The TTL/`lastSeen`
bookkeeping is timing behaviour and is not modelled. -/
def Sessions : Type := List (String × String)

/-- The `Upstream` struct: identity, alias, target list and session
store.  The balancer field is polymorphic in the source and is passed
as a function argument where needed. -/
structure Upstream where
  appID : String
  appAlias : String
  targets : List Target
  sessions : List (String × String)
  deriving DecidableEq, Repr

/-- The `Upstreams` registry: the slice of upstreams. -/
structure Upstreams where
  upstreams : List Upstream
  deriving DecidableEq, Repr

/-- The index-returning linear scan shared by `getUpstreamByID`,
`getUpstreamByAlias` and `Upstream.getTarget`: first element satisfying
the predicate together with its index (counting from `start`), or
`none` for Go's `(-1, nil)`. -/
def findWithIdx (p : α → Bool) : List α → Nat → Option (Nat × α)
  | [], _ => none
  | x :: xs, start => if p x then some (start, x) else findWithIdx p xs (start + 1)

/-- `Upstreams.getUpstreamByID`: first upstream whose `AppID` matches. -/
def getUpstreamByID (us : Upstreams) (appID : String) : Option (Nat × Upstream) :=
  findWithIdx (fun u => u.appID == appID) us.upstreams 0

/-- `Upstreams.getUpstreamByAlias`: first upstream whose `AppAlias`
matches. -/
def getUpstreamByAlias (us : Upstreams) (a : String) : Option (Nat × Upstream) :=
  findWithIdx (fun u => u.appAlias == a) us.upstreams 0

/-- `Upstream.getTarget`: first target of the upstream whose `TaskID`
matches. -/
def Upstream.getTarget (u : Upstream) (taskID : String) : Option (Nat × Target) :=
  findWithIdx (fun t => t.taskID == taskID) u.targets 0

/-- `newUpstream appID appAlias` followed by appending the first target,
as the new-upstream branch of `upsertTarget` builds it: empty session
store, the default balancer being implicit. -/
def newUpstreamWith (t : Target) : Upstream :=
  { appID := t.appID, appAlias := t.appAlias, targets := [t], sessions := [] }

/-- The update branch of `upsertTarget`: the stored target `t0` is
mutated in place, receiving `VersionID`, `AppVersion`, `TaskIP`,
`TaskPort` and `Weight` from the incoming target (its `AppID`,
`AppAlias` and `TaskID` are left as they were). -/
def updateTarget (t0 t : Target) : Target :=
  { t0 with
    versionID := t.versionID
    appVersion := t.appVersion
    taskIP := t.taskIP
    taskPort := t.taskPort
    weight := t.weight }

/-- `Upstreams.upsertTarget`: unknown `AppID` creates a new upstream
unless another upstream already holds the alias (alias-conflict error,
registry unchanged); known `AppID` appends a new target or updates the
one with the matching `TaskID` in place.  Go's in-place mutation
through the found pointers becomes `List.set` at the found indices. -/
def upsertTarget (us : Upstreams) (target : Target) : Option String × Upstreams :=
  match getUpstreamByID us target.appID with
  | none =>
    if (getUpstreamByAlias us target.appAlias).isSome then
      (some ("alias [" ++ target.appAlias ++ "] conflict"), us)
    else
      (none, ⟨us.upstreams ++ [newUpstreamWith target]⟩)
  | some (i, u) =>
    match u.getTarget target.taskID with
    | none =>
      (none, ⟨us.upstreams.set i { u with targets := u.targets ++ [target] }⟩)
    | some (j, t0) =>
      (none, ⟨us.upstreams.set i { u with targets := u.targets.set j (updateTarget t0 target) }⟩)

/-- `Upstreams.getTarget` (the registry-level one): resolve the upstream
by `AppID`, then the target by `TaskID`. -/
def getTarget (us : Upstreams) (appID taskID : String) : Option Target :=
  match getUpstreamByID us appID with
  | none => none
  | some (_, u) => (u.getTarget taskID).map (fun p => p.2)

/-- Modelled from the spec: `sessions.get` — the target bound to the
remote IP, provided it still exists among the upstream's targets
(section 4.6: a session whose target has been removed is invalidated on
the next lookup; `removeTarget` also removes sessions by task id). -/
def sessionsGet (ss : List (String × String)) (targets : List Target)
    (remoteIP : String) : Option Target :=
  match ss.lookup remoteIP with
  | none => none
  | some tid => (findWithIdx (fun t => t.taskID == tid) targets 0).map (fun p => p.2)

/-- Modelled from the spec: `sessions.update remoteIP target` — bind or
refresh the session of `remoteIP` to the target (stored by its
`TaskID`). -/
def sessionsUpdate (ss : List (String × String)) (remoteIP tid : String) :
    List (String × String) :=
  (remoteIP, tid) :: ss.filter (fun p => !(p.1 == remoteIP))

/-- Modelled from the spec: `sessions.remove taskID` — drop every session
bound to the task id (called by `removeTarget`). -/
def sessionsRemove (ss : List (String × String)) (tid : String) :
    List (String × String) :=
  ss.filter (fun p => !(p.2 == tid))

/-- Replace the sessions of the upstream at index `i` (the in-place
`u.sessions.update` of the deferred function in `lookup`). -/
def setSessionsAt (us : Upstreams) (i : Nat) (remoteIP tid : String) : Upstreams :=
  match us.upstreams.get? i with
  | none => us
  | some u => ⟨us.upstreams.set i { u with sessions := sessionsUpdate u.sessions remoteIP tid }⟩

/-- `Upstreams.nextTarget`: resolve the upstream and ask the balancer
(`u.balancer.Next(u.Targets)`); the balancer is the function argument
`next`. -/
def nextTarget (next : List Target → Option Target) (us : Upstreams)
    (appID : String) : Option Target :=
  match getUpstreamByID us appID with
  | none => none
  | some (_, u) => next u.targets

/-- `Upstreams.lookup`: resolve the upstream by `AppID` (miss gives
`nil`); then try the session for `remoteIP`; then, for a non-empty
`taskID`, the exact target; otherwise the balancer's choice.  The
deferred function binds `remoteIP` to the returned target whenever one
is returned, on every path.  Returns the Go return value together with
the registry after the deferred session update. -/
def lookup (next : List Target → Option Target) (us : Upstreams)
    (remoteIP appID taskID : String) : Option Target × Upstreams :=
  match getUpstreamByID us appID with
  | none => (none, us)
  | some (i, u) =>
    match sessionsGet u.sessions u.targets remoteIP with
    | some t => (some t, setSessionsAt us i remoteIP t.taskID)
    | none =>
      if taskID != "" then
        match getTarget us appID taskID with
        | some t => (some t, setSessionsAt us i remoteIP t.taskID)
        | none => (none, us)
      else
        match next u.targets with
        | some t => (some t, setSessionsAt us i remoteIP t.taskID)
        | none => (none, us)

/-- `Upstreams.removeTarget`: resolve upstream and target, remove the
target and its sessions; an upstream left with no targets is torn down
(removed from the registry, its session GC stopped). -/
def removeTarget (us : Upstreams) (target : Target) : Upstreams :=
  match getUpstreamByID us target.appID with
  | none => us
  | some (i, u) =>
    match u.getTarget target.taskID with
    | none => us
    | some (j, _) =>
      let u' : Upstream :=
        { u with
          targets := u.targets.take j ++ u.targets.drop (j + 1)
          sessions := sessionsRemove u.sessions target.taskID }
      if u'.targets.length == 0 then
        ⟨us.upstreams.take i ++ us.upstreams.drop (i + 1)⟩
      else
        ⟨us.upstreams.set i u'⟩

/-- The session binding held for a remote IP on the upstream serving an
application: the bound `TaskID`, when the application is registered and
a session exists. -/
def sessionOf (us : Upstreams) (appID remoteIP : String) : Option String :=
  match getUpstreamByID us appID with
  | none => none
  | some (_, u) => u.sessions.lookup remoteIP

/-- Models Go `strings.HasSuffix` (external library). -/
def goHasSuffix (s suffix : String) : Bool :=
  suffix.data.isSuffixOf s.data

/-- `Target.valid`: the emptiness checks and the `TaskID` suffix check,
with the source's error strings.  (The `t == nil` branch has no value
counterpart.) -/
def targetValid (t : Target) : Option String :=
  if t.appID == "" || t.taskID == "" then
    some "app_id or task_id required"
  else if t.taskIP == "" || t.taskPort == 0 then
    some "task_ip or task_port required"
  else if !(goHasSuffix t.taskID ("-" ++ t.appID)) then
    some "invalid task_id, must be suffixed by app_id"
  else
    none

end Janitor

open Constraints AppSM Janitor

section FindLemmas

variable {α : Type} (p : α → Bool)

theorem findWithIdx_le {l : List α} {k i : Nat} {x : α}
    (h : findWithIdx p l k = some (i, x)) : k ≤ i := by
  induction l generalizing k with
  | nil => simp [findWithIdx] at h
  | cons y ys ih =>
    simp only [findWithIdx] at h
    split at h
    · cases h; exact Nat.le_refl _
    · exact Nat.le_of_succ_le (ih h)

theorem findWithIdx_mem {l : List α} {k i : Nat} {x : α}
    (h : findWithIdx p l k = some (i, x)) : x ∈ l ∧ p x = true := by
  induction l generalizing k with
  | nil => simp [findWithIdx] at h
  | cons y ys ih =>
    simp only [findWithIdx] at h
    split at h
    · cases h
      exact ⟨List.mem_cons_self _ _, by assumption⟩
    · obtain ⟨hm, hp⟩ := ih h
      exact ⟨List.mem_cons_of_mem _ hm, hp⟩

theorem findWithIdx_get? {l : List α} {k i : Nat} {x : α}
    (h : findWithIdx p l k = some (i, x)) : l.get? (i - k) = some x := by
  induction l generalizing k with
  | nil => simp [findWithIdx] at h
  | cons y ys ih =>
    simp only [findWithIdx] at h
    split at h
    · cases h; simp
    · have hk : k + 1 ≤ i := findWithIdx_le p h
      have : i - k = (i - (k + 1)) + 1 := by omega
      rw [this]
      simpa using ih h

theorem findWithIdx_append_right (x : α) {l : List α} {k : Nat}
    (hn : findWithIdx p l k = none) (hp : p x = true) :
    findWithIdx p (l ++ [x]) k = some (k + l.length, x) := by
  induction l generalizing k with
  | nil => simp [findWithIdx, hp]
  | cons y ys ih =>
    rw [List.cons_append]
    simp only [findWithIdx] at hn ⊢
    by_cases hpy : p y = true
    · rw [if_pos hpy] at hn
      exact absurd hn (by simp)
    · rw [if_neg hpy] at hn
      rw [if_neg hpy, ih hn]
      simp only [List.length_cons, Option.some.injEq, Prod.mk.injEq, and_true]
      omega

theorem findWithIdx_set (y : α) {l : List α} {k i : Nat} {x : α}
    (h : findWithIdx p l k = some (i, x)) (hp : p y = true) :
    findWithIdx p (l.set (i - k) y) k = some (i, y) := by
  induction l generalizing k with
  | nil => simp [findWithIdx] at h
  | cons y ys ih =>
    simp only [findWithIdx] at h
    split at h
    · cases h
      have : i - i = 0 := Nat.sub_self i
      rw [this]
      simp only [List.set]
      simp [findWithIdx, hp]
    · rename_i hpy
      have hk : k + 1 ≤ i := findWithIdx_le p h
      have h1 : i - k = (i - (k + 1)) + 1 := by omega
      rw [h1]
      simp only [List.set, findWithIdx, hpy, if_false]
      exact ih h

end FindLemmas

/-- C1: the section 4.4 table marks normal → updating and
updating → cancel_update as legal, yet `TransitTo` panics on both —
`StateFactory` has no case for `updating` or `cancel_update` and its
`default` branch panics with "unrecognized state", so the transition
neither installs the target state nor returns nil. -/
theorem transitTo_factory_panics :
    canTransitTo .normal "updating" = true ∧
    canTransitTo .updating "cancel_update" = true ∧
    TransitTo .normal "updating" = .panicked ∧
    TransitTo .updating "cancel_update" = .panicked :=
  ⟨rfl, rfl, rfl, rfl⟩

/-- C2: on a context where no running task of the slot's application
occupies the offer's hostname (`HostnamesInUse` empty), the intended
`Unique(hostname)` semantics yields true, but `UniqueStatment.Eval` is
an unimplemented stub and returns false. -/
theorem unique_eval_stub_divergence :
    uniqueSpecEval ⟨⟨"h1", "agent-1", []⟩, []⟩ = true ∧
    evalT (.unique "hostname") ⟨⟨"h1", "agent-1", []⟩, []⟩
      = (some false, [.unique "hostname"]) :=
  ⟨rfl, rfl⟩

/-- When evaluation does not panic, its boolean result agrees with the
pure logical denotation of the tree. -/
theorem evalT_fst_denote (s : Stmt) (ctx : Ctx) :
    (evalT s ctx).1 = none ∨ (evalT s ctx).1 = some (denote s ctx) := by
  induction s with
  | snot op1 ih =>
    simp only [evalT, denote]
    rcases ih with h | h <;> rw [h] <;> simp
  | sand op1 op2 ih1 ih2 =>
    simp only [evalT, denote]
    rcases h2 : evalT op2 ctx with ⟨v2, t2⟩
    rw [h2] at ih2
    rcases ih2 with h | h <;> simp only at h <;> subst h
    · simp
    · rcases hd2 : denote op2 ctx with _ | _
      · simp
      · rcases h1 : evalT op1 ctx with ⟨v1, t1⟩
        rw [h1] at ih1
        rcases ih1 with h | h <;> simp only at h <;> subst h <;> simp
  | sor op1 op2 ih1 ih2 =>
    simp only [evalT, denote]
    rcases h2 : evalT op2 ctx with ⟨v2, t2⟩
    rw [h2] at ih2
    rcases ih2 with h | h <;> simp only at h <;> subst h
    · simp
    · rcases hd2 : denote op2 ctx with _ | _
      · rcases h1 : evalT op1 ctx with ⟨v1, t1⟩
        rw [h1] at ih1
        rcases ih1 with h | h <;> simp only at h <;> subst h <;> simp
      · simp
  | unique what => simp [evalT, denote]
  | like what regex =>
    simp only [evalT, denote, likeEval]
    by_cases h : regexpValid regex = true
    · rw [if_pos h]; right; rfl
    · rw [if_neg h]; left; rfl
  | scontains what regex => simp [evalT, denote]

/-- C3 (amended): `And`/`Or` evaluate `Op2` first and short-circuit on it
(`Op1` runs only when `Op2`'s result does not decide the outcome:
`Op2` true for `And`, `Op2` false for `Or`); when evaluation completes,
the result is the deterministic logical conjunction/disjunction of the
operands' denotations, and `Not` is logical negation. -/
theorem eval_order_and_value :
    (∀ s ctx, (evalT s ctx).1 = none ∨ (evalT s ctx).1 = some (denote s ctx)) ∧
    (∀ op1 op2 ctx,
      (evalT (.sand op1 op2) ctx).2
        = (evalT op2 ctx).2
          ++ (if (evalT op2 ctx).1 = some true then (evalT op1 ctx).2 else [])) ∧
    (∀ op1 op2 ctx,
      (evalT (.sor op1 op2) ctx).2
        = (evalT op2 ctx).2
          ++ (if (evalT op2 ctx).1 = some false then (evalT op1 ctx).2 else [])) ∧
    (∀ op1 ctx, (evalT (.snot op1) ctx).1 = ((evalT op1 ctx).1).map (fun b => !b)) := by
  refine ⟨evalT_fst_denote, ?_, ?_, ?_⟩
  · intro op1 op2 ctx
    simp only [evalT]
    rcases h2 : evalT op2 ctx with ⟨v2, t2⟩
    rcases v2 with _ | v2
    · simp
    · rcases v2 with _ | _
      · simp
      · rcases h1 : evalT op1 ctx with ⟨v1, t1⟩
        rcases v1 with _ | v1 <;> simp
  · intro op1 op2 ctx
    simp only [evalT]
    rcases h2 : evalT op2 ctx with ⟨v2, t2⟩
    rcases v2 with _ | v2
    · simp
    · rcases v2 with _ | _
      · rcases h1 : evalT op1 ctx with ⟨v1, t1⟩
        rcases v1 with _ | v1 <;> simp
      · simp
  · intro op1 ctx
    simp [evalT]

/-- C3 (counterexample): for `And(Op1, Op2)` with `Op1 = contains
hostname "a"` and `Op2 = contains hostname "b"`, on an offer with
hostname `"zz"` the evaluation trace is exactly `[Op2]` — `Op2` is
evaluated first and `Op1` is never evaluated, contradicting the claimed
left-to-right order with `Op1` first. -/
theorem and_eval_order_cex :
    evalT (.sand (.scontains "hostname" "a") (.scontains "hostname" "b"))
        ⟨⟨"zz", "ag", []⟩, []⟩
      = (some false, [.scontains "hostname" "b"]) ∧
    (Stmt.scontains "hostname" "a") ∉
      (evalT (.sand (.scontains "hostname" "a") (.scontains "hostname" "b"))
        ⟨⟨"zz", "ag", []⟩, []⟩).2 := by
  refine ⟨rfl, ?_⟩
  decide

/-- C5 (amended): on both `Like` and `Contains` statements, `Valid`
returns nil exactly when the attribute is `"hostname"` or `"agentid"`;
user-defined attribute names are rejected by `Valid`, even though
`Eval` can match them. -/
theorem like_contains_valid_iff (what regex : String) :
    (Stmt.valid (.like what regex) = none ↔ (what = "hostname" ∨ what = "agentid")) ∧
    (Stmt.valid (.scontains what regex) = none ↔ (what = "hostname" ∨ what = "agentid")) := by
  constructor <;> simp [Stmt.valid, sliceContains, likeWhat] <;> tauto

/-- C5 (counterexample): `Valid` rejects a `Like` and a `Contains`
statement over the user-defined attribute name `"rack"`, although
`Eval` does resolve that statement against an offer carrying a text
attribute named `"rack"` — validation does not accept user-defined
attribute names. -/
theorem valid_user_attr_cex :
    Stmt.valid (.like "rack" "r1") = some "only hostname, agentid are supported" ∧
    Stmt.valid (.scontains "rack" "r1") = some "only hostname, ip, agentid are supported" ∧
    (evalT (.like "rack" "r1") ⟨⟨"h1", "ag", [⟨"rack", true, "xr1y"⟩]⟩, []⟩).1
      = some true :=
  ⟨rfl, rfl, rfl⟩

/-- C4 (counterexample): a `Like` statement whose attribute is
`"hostname"` but whose pattern is the invalid regex `"("` passes
`Valid` (which inspects only the attribute, never the pattern), yet its
`Eval` panics — `regexp.MustCompile` (modelled by the `none` result)
raises on the invalid pattern. -/
theorem valid_then_eval_panics_cex :
    Stmt.valid (.like "hostname" "(") = none ∧
    (evalT (.like "hostname" "(") ⟨⟨"h1", "ag", []⟩, []⟩).1 = none :=
  ⟨rfl, rfl⟩

/-- C4 (amended): for every statement accepted by `Valid` all of whose
`Like` patterns compile, `Eval` cannot panic; and a `Like` or
`Contains` over an attribute missing from the offer (neither
`hostname`, `agentid`, nor any text attribute of the offer) evaluates
to `false` rather than failing. -/
theorem eval_total_after_valid :
    (∀ s ctx, Stmt.valid s = none → regexesOk s = true →
      ((evalT s ctx).1).isSome = true) ∧
    (∀ what regex ctx, regexpValid regex = true →
      what ≠ "hostname" → what ≠ "agentid" →
      findTextAttr ctx.offer.attributes what = none →
      (evalT (.like what regex) ctx).1 = some false) ∧
    (∀ what regex ctx,
      what ≠ "hostname" → what ≠ "agentid" →
      findTextAttr ctx.offer.attributes what = none →
      (evalT (.scontains what regex) ctx).1 = some false) := by
  refine ⟨?_, ?_, ?_⟩
  · intro s ctx hv hr
    induction s with
    | snot op1 ih =>
      simp only [Stmt.valid] at hv
      simp only [regexesOk] at hr
      simp only [evalT]
      rcases h1 : evalT op1 ctx with ⟨v1, t1⟩
      have := ih hv hr
      rw [h1] at this
      rcases v1 with _ | v1
      · simp at this
      · simp
    | sand op1 op2 ih1 ih2 =>
      simp only [Stmt.valid] at hv
      simp only [regexesOk, Bool.and_eq_true] at hr
      rcases hv1 : Stmt.valid op1 with _ | e
      · rw [hv1] at hv
        simp only [evalT]
        rcases h2 : evalT op2 ctx with ⟨v2, t2⟩
        have t2s := ih2 hv hr.2
        rw [h2] at t2s
        rcases v2 with _ | v2
        · simp at t2s
        · rcases v2 with _ | _
          · simp
          · rcases h1 : evalT op1 ctx with ⟨v1, t1⟩
            have t1s := ih1 hv1 hr.1
            rw [h1] at t1s
            rcases v1 with _ | v1
            · simp at t1s
            · simp
      · rw [hv1] at hv
        simp at hv
    | sor op1 op2 ih1 ih2 =>
      simp only [Stmt.valid] at hv
      simp only [regexesOk, Bool.and_eq_true] at hr
      rcases hv1 : Stmt.valid op1 with _ | e
      · rw [hv1] at hv
        simp only [evalT]
        rcases h2 : evalT op2 ctx with ⟨v2, t2⟩
        have t2s := ih2 hv hr.2
        rw [h2] at t2s
        rcases v2 with _ | v2
        · simp at t2s
        · rcases v2 with _ | _
          · rcases h1 : evalT op1 ctx with ⟨v1, t1⟩
            have t1s := ih1 hv1 hr.1
            rw [h1] at t1s
            rcases v1 with _ | v1
            · simp at t1s
            · simp
          · simp
      · rw [hv1] at hv
        simp at hv
    | unique what => simp [evalT]
    | like what regex =>
      simp only [regexesOk] at hr
      simp [evalT, likeEval, hr]
    | scontains what regex => simp [evalT]
  · intro what regex ctx hre hh ha hattr
    simp only [evalT, likeEval, hre, if_true, likeMatch]
    rw [if_neg (by simpa using hh), if_neg (by simpa using ha), hattr]
  · intro what regex ctx hh ha hattr
    simp only [evalT, containsEval]
    rw [if_neg (by simpa using hh), if_neg (by simpa using ha), hattr]

/-- C4 (witness): the amended statement applied at concrete inputs — a
validated conjunction with a compiling regex evaluates without panic,
and `like`/`contains` over the absent attribute `"zone"` both evaluate
to `false`. -/
theorem eval_total_after_valid_witness :
    ((evalT (.sand (.like "hostname" "web") (.unique "hostname"))
        ⟨⟨"h1", "ag", []⟩, []⟩).1).isSome = true ∧
    (evalT (.like "zone" "web") ⟨⟨"h1", "ag", []⟩, []⟩).1 = some false ∧
    (evalT (.scontains "zone" "web") ⟨⟨"h1", "ag", []⟩, []⟩).1 = some false :=
  ⟨eval_total_after_valid.1 _ ⟨⟨"h1", "ag", []⟩, []⟩ rfl rfl,
   eval_total_after_valid.2.1 "zone" "web" ⟨⟨"h1", "ag", []⟩, []⟩ rfl
     (by decide) (by decide) rfl,
   eval_total_after_valid.2.2 "zone" "web" ⟨⟨"h1", "ag", []⟩, []⟩
     (by decide) (by decide) rfl⟩

/-- C7 (counterexample): `upsertTarget` performs no validation —
inserting a target whose `TaskID` `"x"` does not end in `"-a"` for
`AppID` `"a"` into an empty registry succeeds (nil error) and the
target is afterwards retrievable, so a target accepted by
`upsertTarget` alone need not satisfy the suffix invariant. -/
theorem upsert_accepts_bad_taskid_cex :
    (upsertTarget ⟨[]⟩ ⟨"a", "al", "v1", "av", "x", "1.1.1.1", 80, 1⟩).1 = none ∧
    getTarget (upsertTarget ⟨[]⟩ ⟨"a", "al", "v1", "av", "x", "1.1.1.1", 80, 1⟩).2 "a" "x"
      = some ⟨"a", "al", "v1", "av", "x", "1.1.1.1", 80, 1⟩ ∧
    goHasSuffix "x" ("-" ++ "a") = false :=
  ⟨rfl, rfl, rfl⟩

/-- C7 (amended): every target that passes `Target.valid` — the check the
router applies to targets before registering them — has a `TaskID`
ending in `"-" + AppID`; `upsertTarget` itself performs no validation,
so the invariant holds only for targets admitted through `valid`. -/
theorem targetValid_suffix (t : Target) (h : targetValid t = none) :
    goHasSuffix t.taskID ("-" ++ t.appID) = true := by
  simp only [targetValid] at h
  split_ifs at h with h1 h2 h3
  · simpa using h3

/-- C7 (witness): a concrete target with `TaskID = "task.0-web"` and
`AppID = "web"` passes `valid`, and the theorem yields its suffix
property. -/
theorem targetValid_suffix_witness :
    goHasSuffix "task.0-web" ("-" ++ "web") = true :=
  targetValid_suffix ⟨"web", "al", "v1", "av", "task.0-web", "1.1.1.1", 80, 1⟩ rfl

/-- C6: `upsertTarget` on a target with an unregistered `AppID` returns
the alias-conflict error and leaves the registry unchanged when some
upstream already holds the alias, and otherwise appends a fresh
upstream holding exactly the new target; on a registered `AppID` it
returns nil and the resolved upstream has the target with the matching
`TaskID` appended (when absent) or updated in place (when present). -/
theorem upsertTarget_spec (us : Upstreams) (t : Target) :
    (getUpstreamByID us t.appID = none →
      ((getUpstreamByAlias us t.appAlias).isSome = true →
        upsertTarget us t = (some ("alias [" ++ t.appAlias ++ "] conflict"), us)) ∧
      (getUpstreamByAlias us t.appAlias = none →
        (upsertTarget us t).1 = none ∧
        getUpstreamByID (upsertTarget us t).2 t.appID
          = some (us.upstreams.length, newUpstreamWith t) ∧
        (newUpstreamWith t).targets = [t])) ∧
    (∀ i u, getUpstreamByID us t.appID = some (i, u) →
      (upsertTarget us t).1 = none ∧
      (u.getTarget t.taskID = none →
        getUpstreamByID (upsertTarget us t).2 t.appID
          = some (i, { u with targets := u.targets ++ [t] })) ∧
      (∀ j t0, u.getTarget t.taskID = some (j, t0) →
        getUpstreamByID (upsertTarget us t).2 t.appID
          = some (i, { u with targets := u.targets.set j (updateTarget t0 t) }))) := by
  constructor
  · intro hid
    constructor
    · intro hal
      simp [upsertTarget, hid, hal]
    · intro hal
      have hguard : (getUpstreamByAlias us t.appAlias).isSome = false := by
        rw [hal]; rfl
      refine ⟨by simp [upsertTarget, hid, hguard], ?_, rfl⟩
      have hid0 : findWithIdx (fun u : Upstream => u.appID == t.appID) us.upstreams 0
          = none := hid
      have happ := findWithIdx_append_right (fun u : Upstream => u.appID == t.appID)
        (newUpstreamWith t) hid0 (by simp [newUpstreamWith])
      simp only [upsertTarget, hid, hguard, Bool.false_eq_true, if_false]
      simpa [getUpstreamByID] using happ
  · intro i u hid
    have hid0 : findWithIdx (fun v : Upstream => v.appID == t.appID) us.upstreams 0
        = some (i, u) := hid
    have hp : (u.appID == t.appID) = true :=
      (findWithIdx_mem (fun v : Upstream => v.appID == t.appID) hid0).2
    refine ⟨?_, ?_, ?_⟩
    · rcases hg : u.getTarget t.taskID with _ | ⟨j, t0⟩ <;>
        simp [upsertTarget, hid, hg]
    · intro hg
      simp only [upsertTarget, hid, hg]
      have hset := findWithIdx_set (fun v : Upstream => v.appID == t.appID)
        { u with targets := u.targets ++ [t] } hid0 hp
      rw [Nat.sub_zero] at hset
      simpa [getUpstreamByID] using hset
    · intro j t0 hg
      simp only [upsertTarget, hid, hg]
      have hset := findWithIdx_set (fun v : Upstream => v.appID == t.appID)
        { u with targets := u.targets.set j (updateTarget t0 t) } hid0 hp
      rw [Nat.sub_zero] at hset
      simpa [getUpstreamByID] using hset

/-- C6 (witness): on a registry holding an upstream `("a", "al")`, a
target for the unregistered app `"b"` carrying the occupied alias
`"al"` is rejected with the conflict error and the registry is
unchanged; the same target under the fresh alias `"bl"` creates a new
upstream holding exactly it. -/
theorem upsertTarget_spec_witness :
    upsertTarget ⟨[⟨"a", "al", [⟨"a", "al", "v", "av", "t1-a", "1.1.1.1", 80, 1⟩], []⟩]⟩
        ⟨"b", "al", "v", "av", "t1-b", "2.2.2.2", 80, 1⟩
      = (some ("alias [" ++ "al" ++ "] conflict"),
         ⟨[⟨"a", "al", [⟨"a", "al", "v", "av", "t1-a", "1.1.1.1", 80, 1⟩], []⟩]⟩) ∧
    (upsertTarget ⟨[⟨"a", "al", [⟨"a", "al", "v", "av", "t1-a", "1.1.1.1", 80, 1⟩], []⟩]⟩
        ⟨"b", "bl", "v", "av", "t1-b", "2.2.2.2", 80, 1⟩).1 = none ∧
    getUpstreamByID (upsertTarget
        ⟨[⟨"a", "al", [⟨"a", "al", "v", "av", "t1-a", "1.1.1.1", 80, 1⟩], []⟩]⟩
        ⟨"b", "bl", "v", "av", "t1-b", "2.2.2.2", 80, 1⟩).2 "b"
      = some (1, newUpstreamWith ⟨"b", "bl", "v", "av", "t1-b", "2.2.2.2", 80, 1⟩) :=
  ⟨((upsertTarget_spec
      ⟨[⟨"a", "al", [⟨"a", "al", "v", "av", "t1-a", "1.1.1.1", 80, 1⟩], []⟩]⟩
      ⟨"b", "al", "v", "av", "t1-b", "2.2.2.2", 80, 1⟩).1 rfl).1 rfl,
   (((upsertTarget_spec
      ⟨[⟨"a", "al", [⟨"a", "al", "v", "av", "t1-a", "1.1.1.1", 80, 1⟩], []⟩]⟩
      ⟨"b", "bl", "v", "av", "t1-b", "2.2.2.2", 80, 1⟩).1 rfl).2 rfl).1,
   (((upsertTarget_spec
      ⟨[⟨"a", "al", [⟨"a", "al", "v", "av", "t1-a", "1.1.1.1", 80, 1⟩], []⟩]⟩
      ⟨"b", "bl", "v", "av", "t1-b", "2.2.2.2", 80, 1⟩).1 rfl).2 rfl).2.1⟩

/-- After the deferred session update of `lookup` rebinds `remoteIP` on
the upstream found at index `i`, the registry resolves that session to
the bound task id. -/
theorem sessionOf_setSessionsAt (us : Upstreams) (i : Nat) (u : Upstream)
    (appID ip tid : String) (h : getUpstreamByID us appID = some (i, u)) :
    sessionOf (setSessionsAt us i ip tid) appID ip = some tid := by
  have h0 : findWithIdx (fun v : Upstream => v.appID == appID) us.upstreams 0
      = some (i, u) := h
  have hget : us.upstreams.get? i = some u := by
    have := findWithIdx_get? (fun v : Upstream => v.appID == appID) h0
    simpa using this
  have hp : (u.appID == appID) = true :=
    (findWithIdx_mem (fun v : Upstream => v.appID == appID) h0).2
  have hset := findWithIdx_set (fun v : Upstream => v.appID == appID)
    { u with sessions := sessionsUpdate u.sessions ip tid } h0 hp
  rw [Nat.sub_zero] at hset
  simp only [setSessionsAt, hget]
  have hfind : getUpstreamByID
      ⟨us.upstreams.set i { u with sessions := sessionsUpdate u.sessions ip tid }⟩ appID
      = some (i, { u with sessions := sessionsUpdate u.sessions ip tid }) := hset
  simp only [sessionOf, hfind]
  simp [sessionsUpdate, List.lookup]

/-- C8: `lookup(remoteIP, appID, taskID)` on an unknown `AppID` returns
nil; on a registered upstream it returns (1) the session's target when
a session for `remoteIP` exists and its target is still among the
upstream's targets, (2) otherwise exactly the registry's target with
the given `TaskID` when `taskID` is non-empty, and (3) otherwise the
balancer's `Next` choice over the upstream's targets, binding the
session `remoteIP → target` on success. -/
theorem lookup_spec (next : List Target → Option Target) (us : Upstreams)
    (remoteIP appID taskID : String) :
    (getUpstreamByID us appID = none →
      lookup next us remoteIP appID taskID = (none, us)) ∧
    (∀ i u, getUpstreamByID us appID = some (i, u) →
      (∀ t, sessionsGet u.sessions u.targets remoteIP = some t →
        (lookup next us remoteIP appID taskID).1 = some t ∧ t ∈ u.targets) ∧
      (sessionsGet u.sessions u.targets remoteIP = none → taskID ≠ "" →
        (lookup next us remoteIP appID taskID).1 = getTarget us appID taskID) ∧
      (sessionsGet u.sessions u.targets remoteIP = none → taskID = "" →
        (lookup next us remoteIP appID taskID).1 = next u.targets ∧
        (∀ t, next u.targets = some t →
          sessionOf (lookup next us remoteIP appID taskID).2 appID remoteIP
            = some t.taskID))) := by
  constructor
  · intro h
    simp [lookup, h]
  · intro i u hid
    refine ⟨?_, ?_, ?_⟩
    · intro t hs
      constructor
      · simp [lookup, hid, hs]
      · simp only [sessionsGet] at hs
        rcases hl : u.sessions.lookup remoteIP with _ | tid
        · rw [hl] at hs
          simp at hs
        · rw [hl] at hs
          simp only [Option.map_eq_some'] at hs
          obtain ⟨⟨j, t0⟩, hf, ht⟩ := hs
          simp only at ht
          subst ht
          exact (findWithIdx_mem (fun v : Target => v.taskID == tid) hf).1
    · intro hs hne
      have hb : (taskID != "") = true := by simpa using hne
      rcases hg : getTarget us appID taskID with _ | t <;>
        simp [lookup, hid, hs, hb, hg]
    · intro hs he
      have hb : (taskID != "") = false := by simp [he]
      constructor
      · rcases hn : next u.targets with _ | t <;>
          simp [lookup, hid, hs, hb, hn]
      · intro t hn
        have hv : (lookup next us remoteIP appID taskID).2
            = setSessionsAt us i remoteIP t.taskID := by
          simp [lookup, hid, hs, hb, hn]
        rw [hv]
        exact sessionOf_setSessionsAt us i u appID remoteIP t.taskID hid

/-- C8 (witness): on a registry with the single upstream `"a"` holding
one target and no sessions, an empty-`taskID` lookup with a
head-of-list balancer returns the balancer's choice and binds the
session of `"ip"` to it. -/
theorem lookup_spec_witness :
    (lookup List.head?
        ⟨[⟨"a", "al", [⟨"a", "al", "v", "av", "t1-a", "1.1.1.1", 80, 1⟩], []⟩]⟩
        "ip" "a" "").1
      = List.head? [(⟨"a", "al", "v", "av", "t1-a", "1.1.1.1", 80, 1⟩ : Target)] ∧
    sessionOf (lookup List.head?
        ⟨[⟨"a", "al", [⟨"a", "al", "v", "av", "t1-a", "1.1.1.1", 80, 1⟩], []⟩]⟩
        "ip" "a" "").2 "a" "ip"
      = some "t1-a" := by
  have h := ((lookup_spec List.head?
      ⟨[⟨"a", "al", [⟨"a", "al", "v", "av", "t1-a", "1.1.1.1", 80, 1⟩], []⟩]⟩
      "ip" "a" "").2 0 ⟨"a", "al", [⟨"a", "al", "v", "av", "t1-a", "1.1.1.1", 80, 1⟩], []⟩
      rfl).2.2 rfl rfl
  exact ⟨h.1, h.2 ⟨"a", "al", "v", "av", "t1-a", "1.1.1.1", 80, 1⟩ rfl⟩

/-- C10: whenever `lookup` returns a target — from the session, from an
explicit `taskID`, or from the balancer — the deferred function has
bound (or refreshed) the session of `remoteIP` on that upstream to
exactly the returned target. -/
theorem lookup_binds_session (next : List Target → Option Target) (us : Upstreams)
    (remoteIP appID taskID : String) (t : Target) (v : Upstreams)
    (h : lookup next us remoteIP appID taskID = (some t, v)) :
    sessionOf v appID remoteIP = some t.taskID := by
  rcases hid : getUpstreamByID us appID with _ | ⟨i, u⟩
  · simp [lookup, hid] at h
  · simp only [lookup, hid] at h
    rcases hs : sessionsGet u.sessions u.targets remoteIP with _ | t0
    · rw [hs] at h
      by_cases hb : (taskID != "") = true
      · rw [if_pos hb] at h
        rcases hg : getTarget us appID taskID with _ | t1
        · rw [hg] at h
          simp at h
        · rw [hg] at h
          simp only [Prod.mk.injEq, Option.some.injEq] at h
          obtain ⟨h1, h2⟩ := h
          subst h1
          subst h2
          exact sessionOf_setSessionsAt us i u appID remoteIP _ hid
      · rw [if_neg hb] at h
        rcases hn : next u.targets with _ | t1
        · rw [hn] at h
          simp at h
        · rw [hn] at h
          simp only [Prod.mk.injEq, Option.some.injEq] at h
          obtain ⟨h1, h2⟩ := h
          subst h1
          subst h2
          exact sessionOf_setSessionsAt us i u appID remoteIP _ hid
    · rw [hs] at h
      simp only [Prod.mk.injEq, Option.some.injEq] at h
      obtain ⟨h1, h2⟩ := h
      subst h1
      subst h2
      exact sessionOf_setSessionsAt us i u appID remoteIP _ hid

/-- C10 (witness): a lookup that obtained its target from an existing
session (not from the balancer) still rebinds the session of `"ip"` to
that target's task id. -/
theorem lookup_binds_session_witness :
    sessionOf
      ⟨[⟨"a", "al", [⟨"a", "al", "v", "av", "t1-a", "1.1.1.1", 80, 1⟩],
        [("ip", "t1-a")]⟩]⟩ "a" "ip"
      = some "t1-a" :=
  lookup_binds_session List.head?
    ⟨[⟨"a", "al", [⟨"a", "al", "v", "av", "t1-a", "1.1.1.1", 80, 1⟩],
      [("ip", "t1-a")]⟩]⟩
    "ip" "a" "" ⟨"a", "al", "v", "av", "t1-a", "1.1.1.1", 80, 1⟩
    ⟨[⟨"a", "al", [⟨"a", "al", "v", "av", "t1-a", "1.1.1.1", 80, 1⟩],
      [("ip", "t1-a")]⟩]⟩ rfl

